import Mathlib

/-!
Verification of the multigit identity-lifecycle engine.

This file shallowly embeds the core of the `cpuix/multigit` repository:
the SSH key-pair codec (`internal/ssh/ssh.go`), the SSH-config
(host-alias) document protocol (`AddSSHConfigEntry`, `RemoveSSHConfigEntry`,
`removeHostEntry`, `containsHost`), and the JSON-backed account store
(`internal/multigit/account.go`).  Documents are byte/char sequences;
file-system and process effects are represented explicitly (outcome values
carrying the bytes that would be written, and effect traces for the
orchestrators).  Theorems at the end settle the specification claims.
-/

namespace Multigit

/-- Text is modelled as a list of characters (Go strings are byte strings;
all inputs of interest here are ASCII). -/
abbrev Str := List Char

/-- Convert a Lean string literal to the `Str` model. -/
def strOf (s : String) : Str := s.toList

/-- Go `unicode.IsSpace` restricted to the Latin-1 range: space, \t, \n,
\v, \f, \r, NEL (U+0085) and NBSP (U+00A0).  All characters occurring in
the documents analysed here are ASCII, where this coincides with Go. -/
def goIsSpace (c : Char) : Bool :=
  c == ' ' || c == '\t' || c == '\n' || c == Char.ofNat 11 ||
    c == Char.ofNat 12 || c == '\r' || c == Char.ofNat 133 || c == Char.ofNat 160

/-- Go `strings.Split(s, "\n")`. -/
def splitOnNl : Str → List Str
  | [] => [[]]
  | c :: rest =>
    if c = '\n' then [] :: splitOnNl rest
    else
      match splitOnNl rest with
      | [] => [[c]]
      | l :: ls => (c :: l) :: ls

/-- Go `strings.Join(ls, "\n")`. -/
def joinNl : List Str → Str
  | [] => []
  | [l] => l
  | l :: ls => l ++ '\n' :: joinNl ls

/-- Left part of Go `strings.TrimSpace`. -/
def trimLeftWS (s : Str) : Str := s.dropWhile goIsSpace

/-- Right part of Go `strings.TrimSpace`. -/
def trimRightWS (s : Str) : Str := (s.reverse.dropWhile goIsSpace).reverse

/-- Go `strings.TrimSpace`. -/
def trimWS (s : Str) : Str := trimRightWS (trimLeftWS s)

/-- Go `strings.Contains(hay, needle)` (note the argument order:
needle first). -/
def containsSub (needle hay : Str) : Bool :=
  needle.isPrefixOf hay ||
    match hay with
    | [] => false
    | _ :: t => containsSub needle t

/-! ## HostAliasStore: the SSH config document protocol (internal/ssh/ssh.go) -/

/-- The derived alias-host token `github.com-<accountName>`
(`hostPattern` in `AddSSHConfigEntry` / `RemoveSSHConfigEntry`). -/
def hostPattern (accountName : Str) : Str := strOf "github.com-" ++ accountName

/-- The begin marker `# Multigit managed config for <accountName>`. -/
def beginMarker (accountName : Str) : Str :=
  strOf "# Multigit managed config for " ++ accountName

/-- The end marker `# End of Multigit config for <accountName>`. -/
def endMarker (accountName : Str) : Str :=
  strOf "# End of Multigit config for " ++ accountName

/-- The text appended by `AddSSHConfigEntry` (the `hostEntry` format
string in ssh.go lines 349-358). -/
def hostEntry (accountName privateKeyFile : Str) : Str :=
  '\n' :: beginMarker accountName ++
  '\n' :: (strOf "Host " ++ hostPattern accountName) ++
  '\n' :: strOf "\tHostName github.com" ++
  '\n' :: strOf "\tUser git" ++
  '\n' :: (strOf "\tIdentityFile " ++ privateKeyFile) ++
  '\n' :: strOf "\tIdentitiesOnly yes" ++
  '\n' :: endMarker accountName ++ ['\n']

/-- `containsHost` (ssh.go lines 614-618): the host pattern occurs after
a newline, or the document starts with it. -/
def containsHost (configData host : Str) : Bool :=
  containsSub ('\n' :: (strOf "Host " ++ host)) configData ||
    (strOf "Host " ++ host).isPrefixOf configData

/-- Outcome of `AddSSHConfigEntry`: either the duplicate-entry error
(returned before any write), or the new full document content that is
written via the backup + temp-file + atomic-rename discipline. -/
inductive AddOutcome
  | duplicateAliasEntry
  | written (newConfig : Str)
deriving DecidableEq

/-- `AddSSHConfigEntry` (ssh.go lines 312-380) at the document level.
`configData` is the current content of `~/.ssh/config` (missing file =
empty), `privateKeyFile` the key path resolved from the account's
existing key files; path resolution and the backup/temp/rename I/O are
the surrounding code.  The duplicate check happens before the backup and
the write, so `duplicateAliasEntry` implies the document is unchanged. -/
def AddSSHConfigEntry (configData accountName privateKeyFile : Str) : AddOutcome :=
  if containsHost configData (hostPattern accountName) then
    .duplicateAliasEntry
  else
    .written (configData ++ hostEntry accountName privateKeyFile)

/-- Loop state of `removeHostEntry` (ssh.go lines 621-676). -/
structure RHState where
  result : List Str
  inHostBlock : Bool
  inMultigitBlock : Bool
  multigitBlockStart : Int
deriving DecidableEq

/-- One iteration of the `removeHostEntry` line loop, mirroring the Go
control flow: begin-marker check, end-marker check, in-block skip,
`Host ` matching, then append of the raw line. -/
def removeHostLine (pat : Str) (st : RHState) (rawLine : Str) : RHState :=
  let line := trimWS rawLine
  if (strOf "# Multigit managed config for ").isPrefixOf line &&
      (pat.isEmpty || containsSub pat line) then
    { st with inMultigitBlock := true, multigitBlockStart := (st.result.length : Int) }
  else if st.inMultigitBlock &&
      ((strOf "# End of Multigit config for ").isPrefixOf line &&
        (pat.isEmpty || containsSub pat line)) then
    { st with inMultigitBlock := false }
  else if st.inMultigitBlock then
    st
  else if (strOf "Host ").isPrefixOf line && (!pat.isEmpty && containsSub pat line) then
    { st with inHostBlock := true }
  else
    let st1 := if (strOf "Host ").isPrefixOf line then { st with inHostBlock := false } else st
    if !st1.inHostBlock && !st1.inMultigitBlock then
      { st1 with result := st1.result ++ [rawLine] }
    else st1

/-- Trailing-blank-line cleanup shared by `removeHostEntry` and
`RemoveSSHConfigEntry`: drop trailing lines that trim to empty. -/
def dropTrailingBlank (ls : List Str) : List Str :=
  (ls.reverse.dropWhile (fun l => (trimWS l).isEmpty)).reverse

/-- `removeHostEntry` (ssh.go lines 621-676). -/
def removeHostEntry (configData pat : Str) : Str :=
  let st := (splitOnNl configData).foldl (removeHostLine pat) ⟨[], false, false, -1⟩
  let res :=
    if st.inMultigitBlock ∧ 0 ≤ st.multigitBlockStart ∧
        st.multigitBlockStart < (st.result.length : Int) then
      st.result.take st.multigitBlockStart.toNat
    else st.result
  joinNl (dropTrailingBlank res)

/-- Outcome of `RemoveSSHConfigEntry`: the no-op "nothing to remove"
return (nil error, no backup, no write, no success message), or a
removal that writes `newConfig` via backup + temp-file + rename and
prints the success message.  Neither is an error. -/
inductive RemoveOutcome
  | nothingToRemove
  | removed (newConfig : Str)
deriving DecidableEq

/-- `RemoveSSHConfigEntry` (ssh.go lines 543-611) at the document level.
A missing config file is the empty document (the code returns nil for it,
and on the empty document the containment pre-check fails the same way). -/
def RemoveSSHConfigEntry (configData accountName : Str) : RemoveOutcome :=
  let pat := hostPattern accountName
  if !containsHost configData pat && !containsSub (beginMarker accountName) configData then
    .nothingToRemove
  else
    let pass1 := removeHostEntry configData pat
    let pass2 := if containsSub accountName pass1 then removeHostEntry pass1 accountName else pass1
    let cleaned := joinNl (dropTrailingBlank (splitOnNl pass2))
    .removed (if cleaned = [] then cleaned else cleaned ++ ['\n'])

/-- The document normal form produced by a removing
`RemoveSSHConfigEntry` call: trailing blank lines trimmed and exactly
one trailing newline when non-empty ("trailing-newline normalization"). -/
def normalizeTrailing (doc : Str) : Str :=
  let cleaned := joinNl (dropTrailingBlank (splitOnNl doc))
  if cleaned = [] then cleaned else cleaned ++ ['\n']

/-! ## KeyPairCodec: byte-level encodings (internal/ssh/ssh.go) -/

/-- File contents are byte lists; every entry is `< 256` by construction. -/
abbrev Bytes := List Nat

/-- ASCII bytes of a string literal. -/
def strBytes (s : String) : Bytes := s.toList.map Char.toNat

/-- Big-endian 32-bit integer as four bytes (SSH wire format). -/
def u32be (n : Nat) : Bytes :=
  [n / 2 ^ 24 % 256, n / 2 ^ 16 % 256, n / 2 ^ 8 % 256, n % 256]

/-- Big-endian 64-bit integer as eight bytes (SSH wire format). -/
def u64be (n : Nat) : Bytes :=
  [n / 2 ^ 56 % 256, n / 2 ^ 48 % 256, n / 2 ^ 40 % 256, n / 2 ^ 32 % 256,
   n / 2 ^ 24 % 256, n / 2 ^ 16 % 256, n / 2 ^ 8 % 256, n % 256]

/-- SSH wire encoding of a string / byte blob: uint32 length prefix then
the bytes (`ssh.Marshal` for `string` and `[]byte` fields). -/
def sshString (b : Bytes) : Bytes := u32be b.length ++ b

/-- One sextet of the standard base64 alphabet as an ASCII byte. -/
def b64Char (n : Nat) : Nat :=
  if n < 26 then 65 + n
  else if n < 52 then 97 + (n - 26)
  else if n < 62 then 48 + (n - 52)
  else if n = 62 then 43
  else 47

/-- `encoding/base64` StdEncoding: 3-byte groups to 4 characters, with
`=` (61) padding. -/
def base64Encode : Bytes → Bytes
  | [] => []
  | [a] => [b64Char (a / 4), b64Char (a % 4 * 16), 61, 61]
  | [a, b] => [b64Char (a / 4), b64Char (a % 4 * 16 + b / 16), b64Char (b % 16 * 4), 61]
  | a :: b :: c :: rest =>
    b64Char (a / 4) :: b64Char (a % 4 * 16 + b / 16) ::
      b64Char (b % 16 * 4 + c / 64) :: b64Char (c % 64) :: base64Encode rest

/-- `encoding/pem`: split the base64 text into lines of at most 64
characters, each terminated by a newline (byte 10); chunk `i` holds
characters `64*i` to `64*i + 63`. -/
def pemLines (l : Bytes) : Bytes :=
  (List.range ((l.length + 63) / 64)).flatMap fun i => (l.drop (64 * i)).take 64 ++ [10]

/-- `pem.EncodeToMemory` of a block with no headers. -/
def pemEncode (blockType payload : Bytes) : Bytes :=
  strBytes "-----BEGIN " ++ blockType ++ strBytes "-----" ++ [10] ++
    pemLines (base64Encode payload) ++
    strBytes "-----END " ++ blockType ++ strBytes "-----" ++ [10]

/-- SSH wire encoding of an ED25519 public key
(`ssh.NewPublicKey(pub).Marshal()`): algorithm name blob then key blob. -/
def ed25519WirePub (pubKey : Bytes) : Bytes :=
  sshString (strBytes "ssh-ed25519") ++ sshString pubKey

/-- `ssh.MarshalAuthorizedKey` for an ED25519 key: the single
authorized_keys line `ssh-ed25519 <base64> ` + newline. -/
def marshalAuthorizedKeyED25519 (pubKey : Bytes) : Bytes :=
  strBytes "ssh-ed25519 " ++ base64Encode (ed25519WirePub pubKey) ++ [10]

/-- `marshalED25519PrivateKey` (ssh.go lines 33-106), as written: the
OpenSSH private-key layout with magic `"openssh-key-v1\x00"` plus one
extra zero byte, cipher/kdf `"none"`, public-key sub-blob, length-prefixed
private sub-blob holding two (uint64-encoded) zero check values, key type,
public key, seed++public key, the comment, padded to a multiple of 8 with
bytes 1,2,..., and wrapped in an `OPENSSH PRIVATE KEY` PEM block. -/
def marshalED25519PrivateKey (seed pubKey comment : Bytes) : Bytes :=
  let pubBlob := ed25519WirePub pubKey
  let priv0 := u64be 0 ++ u64be 0 ++ sshString (strBytes "ssh-ed25519") ++
    sshString pubKey ++ sshString (seed ++ pubKey) ++ sshString comment
  let privBlock :=
    if priv0.length % 8 = 0 then priv0
    else priv0 ++ (List.range (8 - priv0.length % 8)).map (· + 1)
  let magic := strBytes "openssh-key-v1" ++ [0, 0]
  let data := sshString (strBytes "none") ++ sshString (strBytes "none") ++
    sshString [] ++ u32be 1 ++ sshString pubBlob ++ sshString privBlock
  pemEncode (strBytes "OPENSSH PRIVATE KEY") (magic ++ data)

/-- The two files written by one `CreateSSHKey` call. -/
structure KeyWrite where
  privPath : String
  privBytes : Bytes
  pubPath : String
  pubBytes : Bytes
deriving DecidableEq

/-- The ED25519 branch of `CreateSSHKey` (ssh.go lines 119-234, branch at
187-222).  `seed` and `pubKey` are the 32-byte halves of the key pair
produced by `ed25519.GenerateKey` (the private key is seed ++ pubKey).
As in the source, the bytes written to the private-key file are
`pem.EncodeToMemory` of a block of type `OPENSSH PRIVATE KEY` whose
payload is `ssh.MarshalAuthorizedKey(signer.PublicKey())` — the
authorized_keys line of the PUBLIC key (`marshalED25519PrivateKey` is
never called by `CreateSSHKey`).  `sshDir` stands for `~/.ssh/`. -/
def CreateSSHKeyED25519 (sshDir accountName accountEmail keyFile : String)
    (seed pubKey : Bytes) : KeyWrite :=
  let resolved := if keyFile = "" then sshDir ++ "id_ed25519_" ++ accountName else keyFile
  let comment := accountName ++ " <" ++ accountEmail ++ ">"
  let _ := seed
  { privPath := resolved
    privBytes := pemEncode (strBytes "OPENSSH PRIVATE KEY") (marshalAuthorizedKeyED25519 pubKey)
    pubPath := resolved ++ ".pub"
    pubBytes := strBytes "ssh-ed25519 " ++ base64Encode (ed25519WirePub pubKey) ++
      strBytes " " ++ strBytes comment ++ [10] }

/-- `DefaultSSH.CreateSSHKey` (ssh_interface.go lines 26-28) for ED25519:
the interface method takes `(accountName, email, passphrase, keyType)` and
forwards all four positionally to `CreateSSHKey(accountName, accountEmail,
keyFile, keyType)`, so the passphrase argument arrives in the `keyFile`
parameter. -/
def DefaultSSHCreateSSHKeyED25519 (sshDir accountName email passphrase : String)
    (seed pubKey : Bytes) : KeyWrite :=
  CreateSSHKeyED25519 sshDir accountName email passphrase seed pubKey

/-! ## DeleteSSHKey (ssh.go lines 383-482): candidate enumeration -/

/-- Go `filepath.Base`. -/
def goBase (path : Str) : Str :=
  if path = [] then strOf "."
  else
    let p := (path.reverse.dropWhile (· == '/')).reverse
    if p = [] then strOf "/"
    else (p.reverse.takeWhile (fun c => !(c == '/'))).reverse

/-- The key-file paths `DeleteSSHKey` collects for deletion when its
argument is not an existing file path (ssh.go lines 390-438): every
non-directory entry of the `~/.ssh` directory listing whose filename
contains the account name as a substring, then the three naming patterns
`id_rsa_<n>`, `id_ed25519_<n>`, `<n>` with `.pub` companions, with both
the full argument and its `filepath.Base`.  The subsequent loop dedups
this list and attempts to delete each listed file that exists. -/
def deleteSSHKeyCandidates (sshDir : Str) (listing : List (Str × Bool))
    (accountOrKeyFile : Str) : List Str :=
  let accountName := goBase accountOrKeyFile
  let fromDir := (listing.filter fun ent => !ent.2 && containsSub accountName ent.1).map
    (fun ent => sshDir ++ ent.1)
  let pats : List (Str → Str) :=
    [fun n => strOf "id_rsa_" ++ n, fun n => strOf "id_ed25519_" ++ n, fun n => n]
  let fromPats := pats.flatMap fun pattern =>
    let keyFile := sshDir ++ pattern accountOrKeyFile
    [keyFile, keyFile ++ strOf ".pub"] ++
      (if accountName ≠ accountOrKeyFile then
        let keyFile2 := sshDir ++ pattern accountName
        [keyFile2, keyFile2 ++ strOf ".pub"]
      else [])
  fromDir ++ fromPats

/-! ## AccountStore (internal/multigit/account.go) -/

/-- `Account` (account.go lines 15-18). -/
structure Account where
  name : String
  email : String
deriving DecidableEq

/-- `Profile` (account.go lines 21-24); the `accounts` map
`map[string]bool` is an association list here. -/
structure Profile where
  name : String
  accounts : List (String × Bool)
deriving DecidableEq

/-- `Config` (account.go lines 27-32).  Go maps are association lists;
the Go-level distinction between a nil and an empty map is handled at the
unmarshalling boundary (`RawConfig`). -/
structure Config where
  accounts : List (String × Account)
  activeAccount : String
  profiles : List (String × Profile)
  activeProfile : String
deriving DecidableEq

/-- Map lookup (`m[k]`). -/
def lookupA {α : Type} (m : List (String × α)) (k : String) : Option α :=
  (m.find? fun kv => kv.1 == k).map (·.2)

/-- Map store (`m[k] = v`): replace an existing binding or append. -/
def insertA {α : Type} (m : List (String × α)) (k : String) (v : α) :
    List (String × α) :=
  if (lookupA m k).isSome then m.map fun kv => if kv.1 == k then (k, v) else kv
  else m ++ [(k, v)]

/-- Map delete (`delete(m, k)`). -/
def eraseA {α : Type} (m : List (String × α)) (k : String) : List (String × α) :=
  m.filter fun kv => !(kv.1 == k)

/-- `NewConfig` (account.go lines 134-139). -/
def NewConfig : Config := ⟨[], "", [], ""⟩

/-- A JSON value as handed to/from `encoding/json` (the subset the
config schema can produce or meet: the byte-level parser is the external
library). -/
inductive Jval
  | null
  | bool (b : Bool)
  | str (s : String)
  | obj (fields : List (String × Jval))

/-- Go `json.Marshal` of an `Account`. -/
def encodeAccount (a : Account) : Jval :=
  .obj [("name", .str a.name), ("email", .str a.email)]

/-- Go `json.Marshal` of a `Profile`. -/
def encodeProfile (p : Profile) : Jval :=
  .obj [("name", .str p.name),
        ("accounts", .obj (p.accounts.map fun kv => (kv.1, .bool kv.2)))]

/-- Go `json.Marshal` of a `Config`, with the struct's snake_case field
tags in declaration order. -/
def encodeConfig (c : Config) : Jval :=
  .obj [("accounts", .obj (c.accounts.map fun kv => (kv.1, encodeAccount kv.2))),
        ("active_account", .str c.activeAccount),
        ("profiles", .obj (c.profiles.map fun kv => (kv.1, encodeProfile kv.2))),
        ("active_profile", .str c.activeProfile)]

/-- The Go-level struct right after `json.Unmarshal`, where the two maps
may still be nil (`none`). -/
structure RawConfig where
  accounts : Option (List (String × Account))
  activeAccount : String
  profiles : Option (List (String × Profile))
  activeProfile : String
deriving DecidableEq

/-- Unmarshal a `string` struct field: absent or null leaves the zero
value, a JSON string is taken, any other shape is an unmarshal error. -/
def decodeStringField (fields : List (String × Jval)) (k : String) :
    Except Unit String :=
  match lookupA fields k with
  | none => .ok ""
  | some .null => .ok ""
  | some (.str s) => .ok s
  | some _ => .error ()

/-- Unmarshal an object's entries into a map, value by value; an error
on any entry is the error of the whole map (`json.Unmarshal` of a
`map[string]T`). -/
def decodeEntries {α : Type} (dec : Jval → Except Unit α) :
    List (String × Jval) → Except Unit (List (String × α))
  | [] => .ok []
  | kv :: t =>
    match dec kv.2 with
    | .error e => .error e
    | .ok a =>
      match decodeEntries dec t with
      | .error e => .error e
      | .ok rest => .ok ((kv.1, a) :: rest)

/-- Unmarshal into `Account`. -/
def decodeAccount : Jval → Except Unit Account
  | .null => .ok ⟨"", ""⟩
  | .obj fs =>
    match decodeStringField fs "name" with
    | .error e => .error e
    | .ok n =>
      match decodeStringField fs "email" with
      | .error e => .error e
      | .ok e => .ok ⟨n, e⟩
  | _ => .error ()

/-- Unmarshal into `bool`. -/
def decodeBool : Jval → Except Unit Bool
  | .null => .ok false
  | .bool b => .ok b
  | _ => .error ()

/-- Unmarshal a `map[string]T`-typed struct field: absent or null stays
nil, an object decodes entrywise, anything else is an error. -/
def decodeMapField {α : Type} (dec : Jval → Except Unit α)
    (fields : List (String × Jval)) (k : String) :
    Except Unit (Option (List (String × α))) :=
  match lookupA fields k with
  | none => .ok none
  | some .null => .ok none
  | some (.obj entries) =>
    match decodeEntries dec entries with
    | .error e => .error e
    | .ok m => .ok (some m)
  | some _ => .error ()

/-- Unmarshal into `Profile`. -/
def decodeProfile : Jval → Except Unit Profile
  | .null => .ok ⟨"", []⟩
  | .obj fs =>
    match decodeStringField fs "name" with
    | .error e => .error e
    | .ok n =>
      match decodeMapField decodeBool fs "accounts" with
      | .error e => .error e
      | .ok acc => .ok ⟨n, acc.getD []⟩
  | _ => .error ()

/-- Unmarshal into the `Config` struct (`json.Unmarshal(data, &config)`):
a JSON null leaves everything zero, a map-typed field that is absent or
null stays nil, unknown fields are ignored, shape mismatches are
errors. -/
def unmarshalConfig : Jval → Except Unit RawConfig
  | .null => .ok ⟨none, "", none, ""⟩
  | .obj fs =>
    match decodeMapField decodeAccount fs "accounts" with
    | .error e => .error e
    | .ok acc =>
      match decodeStringField fs "active_account" with
      | .error e => .error e
      | .ok aa =>
        match decodeMapField decodeProfile fs "profiles" with
        | .error e => .error e
        | .ok prof =>
          match decodeStringField fs "active_profile" with
          | .error e => .error e
          | .ok ap => .ok ⟨acc, aa, prof, ap⟩
  | _ => .error ()

/-- What `LoadConfig` finds on disk: the config file can be missing,
unreadable, readable but not valid JSON, or readable and parsing to a
JSON value (the byte-level parse itself is `encoding/json`). -/
inductive DiskState
  | missing
  | unreadable
  | malformed
  | json (v : Jval)

/-- `LoadConfig` (account.go lines 166-201): missing file, read error and
parse error all fall back to `NewConfig` (logged, never surfaced — the
return type has no error component); after a successful parse, nil maps
are initialized to empty. -/
def LoadConfig : DiskState → Config
  | .missing => NewConfig
  | .unreadable => NewConfig
  | .malformed => NewConfig
  | .json v =>
    match unmarshalConfig v with
    | .error _ => NewConfig
    | .ok raw =>
      { accounts := raw.accounts.getD [], activeAccount := raw.activeAccount,
        profiles := raw.profiles.getD [], activeProfile := raw.activeProfile }

/-- The self-healing pass of `SaveConfigToFile` (account.go lines
220-232), in source order: clear a dangling `ActiveProfile`, then a
dangling `ActiveAccount`. -/
def healConfig (c : Config) : Config :=
  let c1 :=
    if c.activeProfile ≠ "" ∧ lookupA c.profiles c.activeProfile = none then
      { c with activeProfile := "" }
    else c
  if c1.activeAccount ≠ "" ∧ lookupA c1.accounts c1.activeAccount = none then
    { c1 with activeAccount := "" }
  else c1

/-- `SaveConfigToFile` (account.go lines 213-246) at the JSON-value
level: heal, then marshal; the indented rendering to bytes and the
direct (non-atomic) file write are I/O around this value. -/
def SaveConfigToFile (c : Config) : Jval := encodeConfig (healConfig c)

/-! ## IdentityLifecycle orchestrators (internal/multigit/account.go) -/

/-- Failure modes of `CreateAccount`, one per `return fmt.Errorf` site,
in source order. -/
inductive CreateErr
  | emptyName
  | emptyEmail
  | invalidEmail
  | duplicateAccount
  | sshKeyFailed
  | agentFailed
  | configEntryFailed
  | saveFailed
deriving DecidableEq

/-- The side-effecting collaborator calls `CreateAccount` makes, in call
order.  An effect is recorded when the collaborator is invoked (whether
or not it then fails); key files can only be written inside
`createSSHKey`. -/
inductive Effect
  | createSSHKey
  | addKeyToAgent
  | addConfigEntry
  | saveConfig
deriving DecidableEq

/-- Results of the injected collaborators (`SSHClient` methods and the
save function) for one `CreateAccount` run. -/
structure Collab where
  createKeyOk : Bool
  agentOk : Bool
  configEntryOk : Bool
  saveOk : Bool

/-- `CreateAccount` (account.go lines 38-94).  `loaded` is the document
`LoadConfig()` returns at the start of the call; the result pairs the
outcome (the saved document on success) with the trace of collaborator
invocations.  Every validation check precedes every effect, each
collaborator failure aborts immediately, and the account is inserted
into the in-memory document before the save. -/
def CreateAccount (accountName accountEmail passphrase : String)
    (loaded : Config) (co : Collab) : Except CreateErr Config × List Effect :=
  let _ := passphrase
  if accountName = "" then (.error .emptyName, [])
  else if accountEmail = "" then (.error .emptyEmail, [])
  else if !containsSub (strOf "@") (strOf accountEmail) then (.error .invalidEmail, [])
  else if (lookupA loaded.accounts accountName).isSome then (.error .duplicateAccount, [])
  else if !co.createKeyOk then (.error .sshKeyFailed, [.createSSHKey])
  else if !co.agentOk then (.error .agentFailed, [.createSSHKey, .addKeyToAgent])
  else if !co.configEntryOk then
    (.error .configEntryFailed, [.createSSHKey, .addKeyToAgent, .addConfigEntry])
  else
    let cfg := { loaded with
      accounts := insertA loaded.accounts accountName ⟨accountName, accountEmail⟩ }
    if !co.saveOk then
      (.error .saveFailed, [.createSSHKey, .addKeyToAgent, .addConfigEntry, .saveConfig])
    else (.ok cfg, [.createSSHKey, .addKeyToAgent, .addConfigEntry, .saveConfig])

/-- Failure modes of `DeleteAccount`: only the absent-account fast path
and the final save can fail. -/
inductive DeleteErr
  | accountNotFound
  | saveFailed
deriving DecidableEq

/-- The collaborator calls `DeleteAccount` makes, in call order. -/
inductive DelEffect
  | deleteSSHKey
  | removeConfigEntry
  | saveConfig
deriving DecidableEq

/-- Collaborator results for one `DeleteAccount` run. -/
structure DelCollab where
  deleteKeyOk : Bool
  removeEntryOk : Bool
  saveOk : Bool

/-- `DeleteAccount` (account.go lines 97-131).  `loaded` is the freshly
loaded document.  An absent name fails fast with no effects; otherwise
key-file and alias-entry removal are invoked best-effort (their failures
are logged and ignored — note the result never inspects `deleteKeyOk` or
`removeEntryOk`), the record is removed, the active account is cleared if
it was the deleted one, and only the save can fail. -/
def DeleteAccount (accountName : String) (loaded : Config) (co : DelCollab) :
    Except DeleteErr Config × List DelEffect :=
  if !(lookupA loaded.accounts accountName).isSome then (.error .accountNotFound, [])
  else
    let cfg1 := { loaded with accounts := eraseA loaded.accounts accountName }
    let cfg2 :=
      if cfg1.activeAccount = accountName then { cfg1 with activeAccount := "" } else cfg1
    if !co.saveOk then
      (.error .saveFailed, [.deleteSSHKey, .removeConfigEntry, .saveConfig])
    else (.ok cfg2, [.deleteSSHKey, .removeConfigEntry, .saveConfig])

/-! ## Helper lemmas -/

theorem containsSub_iff_infix {needle hay : Str} :
    containsSub needle hay = true ↔ needle <:+: hay := by
  induction hay with
  | nil =>
    simp [containsSub, List.isPrefixOf_iff_prefix]
  | cons c t ih =>
    rw [containsSub]
    simp [List.isPrefixOf_iff_prefix, ih, List.infix_cons_iff]

theorem containsSub_of_infix {needle hay : Str} (h : needle <:+: hay) :
    containsSub needle hay = true := containsSub_iff_infix.mpr h

theorem containsSub_false_of_sub {n₁ n₂ hay : Str} (h : containsSub n₁ hay = false)
    (hsub : n₁ <:+: n₂) : containsSub n₂ hay = false := by
  by_contra hc
  rw [Bool.not_eq_false, containsSub_iff_infix] at hc
  rw [← Bool.not_eq_true, containsSub_iff_infix] at h
  exact h (hsub.trans hc)

theorem lookupA_of_none {α : Type} {m : List (String × α)} {k : String} (v : α)
    (h : lookupA m k = none) : lookupA (m ++ [(k, v)]) k = some v := by
  induction m with
  | nil => simp [lookupA]
  | cons kv t ih =>
    unfold lookupA at *
    rcases hk : (kv.1 == k) with _ | _
    · simp only [List.cons_append, List.find?_cons, hk] at *
      exact ih h
    · simp [List.find?_cons, hk] at h

theorem lookupA_insertA_of_none {α : Type} {m : List (String × α)} {k : String} (v : α)
    (h : lookupA m k = none) : lookupA (insertA m k v) k = some v := by
  unfold insertA
  rw [h]
  simpa using lookupA_of_none v h

theorem lookupA_eraseA {α : Type} (m : List (String × α)) (k : String) :
    lookupA (eraseA m k) k = none := by
  induction m with
  | nil => simp [lookupA, eraseA]
  | cons kv t ih =>
    unfold eraseA lookupA at *
    rcases hk : (kv.1 == k) with _ | _
    · simp [List.filter_cons, hk, List.find?_cons, ih]
    · simp [List.filter_cons, hk, ih]

theorem decodeAccount_encode (a : Account) : decodeAccount (encodeAccount a) = .ok a := by
  cases a
  simp [decodeAccount, encodeAccount, decodeStringField, lookupA, List.find?]

theorem decodeEntries_encode {α : Type} (dec : Jval → Except Unit α) (enc : α → Jval)
    (h : ∀ a, dec (enc a) = .ok a) (l : List (String × α)) :
    decodeEntries dec (l.map fun kv => (kv.1, enc kv.2)) = .ok l := by
  induction l with
  | nil => simp [decodeEntries]
  | cons kv t ih => simp [decodeEntries, h, ih]

theorem decodeProfile_encode (p : Profile) : decodeProfile (encodeProfile p) = .ok p := by
  cases p with
  | mk n acc =>
    simp [decodeProfile, encodeProfile, decodeStringField, decodeMapField, lookupA, List.find?,
      decodeEntries_encode decodeBool Jval.bool (fun b => rfl) acc]

theorem unmarshalConfig_encode (c : Config) :
    unmarshalConfig (encodeConfig c) =
      .ok ⟨some c.accounts, c.activeAccount, some c.profiles, c.activeProfile⟩ := by
  cases c with
  | mk acc aa prof ap =>
    simp [unmarshalConfig, encodeConfig, decodeStringField, decodeMapField, lookupA, List.find?,
      decodeEntries_encode decodeAccount encodeAccount decodeAccount_encode acc,
      decodeEntries_encode decodeProfile encodeProfile decodeProfile_encode prof]

theorem healConfig_eq (c : Config) :
    healConfig c =
      ⟨c.accounts,
       if c.activeAccount ≠ "" ∧ lookupA c.accounts c.activeAccount = none then ""
       else c.activeAccount,
       c.profiles,
       if c.activeProfile ≠ "" ∧ lookupA c.profiles c.activeProfile = none then ""
       else c.activeProfile⟩ := by
  cases c with
  | mk acc aa prof ap =>
    unfold healConfig
    dsimp only
    split_ifs <;> simp_all

theorem healConfig_idem (c : Config) : healConfig (healConfig c) = healConfig c := by
  rw [healConfig_eq c, healConfig_eq]
  dsimp only
  split_ifs <;> simp_all

/-! ## Claim theorems -/

/-- C9: `LoadConfig` never fails the caller: its return type carries no
error, and for a missing, unreadable, or malformed-JSON config file it
returns the fresh empty document whose two maps are both initialized
(empty, never nil). -/
theorem loadConfig_never_fails :
    LoadConfig .missing = NewConfig ∧ LoadConfig .unreadable = NewConfig ∧
    LoadConfig .malformed = NewConfig ∧
    NewConfig.accounts = [] ∧ NewConfig.profiles = [] := by
  simp [LoadConfig, NewConfig]

/-- C6: loading after saving yields the document with dangling
active-references cleared (`healConfig`) and nothing else changed; the
self-healing rule is idempotent, so saving again after load-of-save
writes the same value. -/
theorem config_save_load_roundtrip (D : Config) :
    LoadConfig (.json (SaveConfigToFile D)) = healConfig D ∧
    (healConfig D).accounts = D.accounts ∧ (healConfig D).profiles = D.profiles ∧
    healConfig (healConfig D) = healConfig D ∧
    SaveConfigToFile (LoadConfig (.json (SaveConfigToFile D))) = SaveConfigToFile D := by
  have hload : LoadConfig (.json (SaveConfigToFile D)) = healConfig D := by
    simp [LoadConfig, SaveConfigToFile, unmarshalConfig_encode]
  refine ⟨hload, ?_, ?_, healConfig_idem D, ?_⟩
  · rw [healConfig_eq]
  · rw [healConfig_eq]
  · rw [hload]
    unfold SaveConfigToFile
    rw [healConfig_idem]

/-- C3: `CreateAccount` checks, in order: name non-empty, email
non-empty, email contains `@`, name not already in the loaded document;
the first failing check wins with an empty effect trace (no collaborator
invoked, hence no key files written); and after a successful create, a
second create with the same name fails with the duplicate-account error
and again invokes nothing. -/
theorem createAccount_validation_order (n e pss : String) (cfg : Config) (co : Collab) :
    (n = "" → CreateAccount n e pss cfg co = (.error .emptyName, [])) ∧
    (n ≠ "" → e = "" → CreateAccount n e pss cfg co = (.error .emptyEmail, [])) ∧
    (n ≠ "" → e ≠ "" → containsSub (strOf "@") (strOf e) = false →
      CreateAccount n e pss cfg co = (.error .invalidEmail, [])) ∧
    (n ≠ "" → e ≠ "" → containsSub (strOf "@") (strOf e) = true →
      (lookupA cfg.accounts n).isSome →
      CreateAccount n e pss cfg co = (.error .duplicateAccount, [])) ∧
    (∀ cfg2 eff e2 p2 co2, CreateAccount n e pss cfg co = (.ok cfg2, eff) →
      e2 ≠ "" → containsSub (strOf "@") (strOf e2) = true →
      CreateAccount n e2 p2 cfg2 co2 = (.error .duplicateAccount, [])) := by
  refine ⟨?_, ?_, ?_, ?_, ?_⟩
  · intro h
    simp [CreateAccount, h]
  · intro hn he
    simp [CreateAccount, hn, he]
  · intro hn he hat
    simp [CreateAccount, hn, he, hat]
  · intro hn he hat hdup
    simp [CreateAccount, hn, he, hat, hdup]
  · intro cfg2 eff e2 p2 co2 hok he2 hat2
    unfold CreateAccount at hok
    split_ifs at hok with h1 h2 h3 h4 h5 h6 h7 h8
    all_goals simp_all
    have hcfg2 : cfg2.accounts = insertA cfg.accounts n ⟨n, e⟩ := by
      rw [← hok.1]
    have hnone : lookupA cfg.accounts n = none := by
      cases hx : lookupA cfg.accounts n with
      | none => rfl
      | some v => simp [hx] at h4
    have hsome : (lookupA cfg2.accounts n).isSome := by
      rw [hcfg2, lookupA_insertA_of_none _ hnone]
      rfl
    simp [CreateAccount, h1, he2, hat2, hsome]

/-- C7: `DeleteAccount` on an absent name fails fast with the
account-not-found error and no effects; on a present name the result is
independent of the key-file and alias-entry collaborator outcomes (their
failures are only logged), the record is removed, the active account is
cleared exactly when it was the deleted name, the other fields are kept,
and only the save step can fail. -/
theorem deleteAccount_contract (n : String) (cfg : Config) (co : DelCollab) :
    (lookupA cfg.accounts n = none → DeleteAccount n cfg co = (.error .accountNotFound, [])) ∧
    ((lookupA cfg.accounts n).isSome →
      (∀ b b', DeleteAccount n cfg ⟨b, b', co.saveOk⟩ = DeleteAccount n cfg co) ∧
      (co.saveOk = false →
        DeleteAccount n cfg co =
          (.error .saveFailed, [.deleteSSHKey, .removeConfigEntry, .saveConfig])) ∧
      (co.saveOk = true →
        DeleteAccount n cfg co =
          (.ok ⟨eraseA cfg.accounts n,
                if cfg.activeAccount = n then "" else cfg.activeAccount,
                cfg.profiles, cfg.activeProfile⟩,
           [.deleteSSHKey, .removeConfigEntry, .saveConfig]) ∧
        lookupA (eraseA cfg.accounts n) n = none)) := by
  refine ⟨?_, fun hsome => ⟨?_, ?_, ?_⟩⟩
  · intro h
    simp [DeleteAccount, h]
  · intro b b'
    simp [DeleteAccount]
  · intro hsave
    simp [DeleteAccount, hsome, hsave]
  · intro hsave
    refine ⟨?_, lookupA_eraseA cfg.accounts n⟩
    unfold DeleteAccount
    simp only [hsome, hsave]
    split_ifs with hact <;> simp_all

theorem goBase_eq_self {acct : Str} (hslash : ∀ c ∈ acct, c ≠ '/') (hne : acct ≠ []) :
    goBase acct = acct := by
  have hdrop : acct.reverse.dropWhile (· == '/') = acct.reverse := by
    cases hr : acct.reverse with
    | nil => simp
    | cons c t =>
      have hc : c ∈ acct := by
        have h1 : c ∈ acct.reverse := by
          rw [hr]
          exact List.mem_cons_self c t
        simpa using h1
      have := hslash c hc
      simp [List.dropWhile_cons, this]
  have htake : acct.reverse.takeWhile (fun c => !(c == '/')) = acct.reverse := by
    apply List.takeWhile_eq_self_iff.mpr
    intro c hc
    have hc2 : c ∈ acct := by simpa using hc
    simp [hslash c hc2]
  unfold goBase
  rw [if_neg hne]
  simp only [hdrop, List.reverse_reverse, if_neg hne, htake]

/-- C10: when `DeleteSSHKey` is given an account name (not an existing
file path), the paths it collects for deletion include every
non-directory entry of the `~/.ssh` listing whose filename contains the
account name as a substring, in addition to the standard
`id_rsa_<name>` / `id_ed25519_<name>` pattern pairs, so key files of
other identities whose names contain the deleted name are deleted too. -/
theorem deleteSSHKey_overmatch (sshDir : Str) (listing : List (Str × Bool)) (acct : Str)
    (hslash : ∀ c ∈ acct, c ≠ '/') (hne : acct ≠ []) :
    (∀ nm isDir, (nm, isDir) ∈ listing → isDir = false → containsSub acct nm = true →
      (sshDir ++ nm) ∈ deleteSSHKeyCandidates sshDir listing acct) ∧
    (sshDir ++ (strOf "id_rsa_" ++ acct)) ∈ deleteSSHKeyCandidates sshDir listing acct ∧
    (sshDir ++ (strOf "id_ed25519_" ++ acct)) ∈ deleteSSHKeyCandidates sshDir listing acct := by
  have hbase : goBase acct = acct := goBase_eq_self hslash hne
  refine ⟨?_, ?_, ?_⟩
  · intro nm isDir hmem hdir hcon
    subst hdir
    unfold deleteSSHKeyCandidates
    rw [hbase]
    apply List.mem_append_left
    apply List.mem_map.mpr
    refine ⟨(nm, false), ?_, rfl⟩
    apply List.mem_filter.mpr
    simp [hmem, hcon]
  · unfold deleteSSHKeyCandidates
    rw [hbase]
    apply List.mem_append_right
    simp [List.flatMap]
  · unfold deleteSSHKeyCandidates
    rw [hbase]
    apply List.mem_append_right
    simp [List.flatMap]

theorem hostEntry_decomp (N p : Str) :
    hostEntry N p =
      ('\n' :: beginMarker N) ++ ('\n' :: (strOf "Host " ++ hostPattern N)) ++
        ('\n' :: strOf "\tHostName github.com" ++
         '\n' :: strOf "\tUser git" ++
         '\n' :: (strOf "\tIdentityFile " ++ p) ++
         '\n' :: strOf "\tIdentitiesOnly yes" ++
         '\n' :: endMarker N ++ ['\n']) := by
  simp [hostEntry, List.append_assoc]

theorem containsHost_append_hostEntry (doc N p : Str) :
    containsHost (doc ++ hostEntry N p) (hostPattern N) = true := by
  unfold containsHost
  apply Bool.or_eq_true_iff.mpr
  left
  apply containsSub_of_infix
  refine ⟨doc ++ ('\n' :: beginMarker N),
    '\n' :: strOf "\tHostName github.com" ++
      '\n' :: strOf "\tUser git" ++
      '\n' :: (strOf "\tIdentityFile " ++ p) ++
      '\n' :: strOf "\tIdentitiesOnly yes" ++
      '\n' :: endMarker N ++ ['\n'], ?_⟩
  rw [hostEntry_decomp]
  simp [List.append_assoc]

set_option maxRecDepth 8192

/-- C1: the ED25519 branch of `CreateSSHKey` does not write the claimed
OpenSSH private-key layout.  The bytes written to the private-key file
are a function of the public key alone (the seed is never persisted),
namely a PEM block whose payload is the authorized_keys line of the
public key; at a concrete key they differ from the
`marshalED25519PrivateKey` layout the claim (and the unused helper)
describe.  The public-key file line `ssh-ed25519 <base64> <comment>`
itself is as claimed. -/
theorem ed25519_private_file_is_public_key :
    (∀ sshDir n e k seed₁ seed₂ pub,
      (CreateSSHKeyED25519 sshDir n e k seed₁ pub).privBytes =
        (CreateSSHKeyED25519 sshDir n e k seed₂ pub).privBytes) ∧
    (∀ sshDir n e k seed pub,
      (CreateSSHKeyED25519 sshDir n e k seed pub).privBytes =
        pemEncode (strBytes "OPENSSH PRIVATE KEY") (marshalAuthorizedKeyED25519 pub) ∧
      (CreateSSHKeyED25519 sshDir n e k seed pub).pubBytes =
        strBytes "ssh-ed25519 " ++ base64Encode (ed25519WirePub pub) ++
          strBytes " " ++ strBytes (n ++ " <" ++ e ++ ">") ++ [10]) ∧
    (CreateSSHKeyED25519 "~/.ssh/" "work" "a@b.com" ""
        (List.replicate 32 1) (List.replicate 32 2)).privBytes ≠
      marshalED25519PrivateKey (List.replicate 32 1) (List.replicate 32 2)
        (strBytes "work <a@b.com>") := by
  refine ⟨fun _ _ _ _ _ _ _ => rfl, fun _ _ _ _ _ _ => ⟨rfl, rfl⟩, by decide⟩

/-- C2: `DefaultSSH.CreateSSHKey` forwards its passphrase argument into
the implementation's `keyFile` parameter, so a non-empty passphrase
becomes the private-key file path, and the bytes written there are the
fixed unencrypted encoding — identical to those written with an empty
passphrase, with no PEM encryption headers and no dependence on the
passphrase. -/
theorem passphrase_is_keyfile_and_never_encrypts (sshDir n e pass : String)
    (seed pub : Bytes) (hp : pass ≠ "") :
    (DefaultSSHCreateSSHKeyED25519 sshDir n e pass seed pub).privPath = pass ∧
    (DefaultSSHCreateSSHKeyED25519 sshDir n e pass seed pub).privBytes =
      pemEncode (strBytes "OPENSSH PRIVATE KEY") (marshalAuthorizedKeyED25519 pub) ∧
    (DefaultSSHCreateSSHKeyED25519 sshDir n e pass seed pub).privBytes =
      (DefaultSSHCreateSSHKeyED25519 sshDir n e "" seed pub).privBytes := by
  refine ⟨?_, rfl, rfl⟩
  simp [DefaultSSHCreateSSHKeyED25519, CreateSSHKeyED25519, hp]

/-- Witness for `passphrase_is_keyfile_and_never_encrypts` at a concrete
call: creating a key for account `work` with passphrase `secret` writes
the private key to the path `secret`. -/
theorem passphrase_is_keyfile_witness :
    "secret" ≠ "" ∧
    (DefaultSSHCreateSSHKeyED25519 "~/.ssh/" "work" "a@b.com" "secret"
        (List.replicate 32 1) (List.replicate 32 2)).privPath = "secret" :=
  ⟨by decide, (passphrase_is_keyfile_and_never_encrypts "~/.ssh/" "work" "a@b.com" "secret"
    (List.replicate 32 1) (List.replicate 32 2) (by decide)).1⟩

/-- C5: per identity name the alias document behaves as the claimed
state machine: on an absent name (no derived host pattern, no begin
marker) `AddSSHConfigEntry` succeeds and the result contains the host
pattern (ABSENT to PRESENT); on a present name it fails with the
duplicate-entry outcome, which is returned before the backup and the
write, so the document is unchanged; and `RemoveSSHConfigEntry` on an
absent name is the non-error nothing-to-remove no-op. -/
theorem hostAliasStore_state_machine (doc N p doc2 : Str)
    (habsent : containsHost doc (hostPattern N) = false)
    (hmark : containsSub (beginMarker N) doc = false)
    (hpresent : containsHost doc2 (hostPattern N) = true) :
    AddSSHConfigEntry doc N p = .written (doc ++ hostEntry N p) ∧
    containsHost (doc ++ hostEntry N p) (hostPattern N) = true ∧
    AddSSHConfigEntry doc2 N p = .duplicateAliasEntry ∧
    RemoveSSHConfigEntry doc N = .nothingToRemove := by
  refine ⟨?_, containsHost_append_hostEntry doc N p, ?_, ?_⟩
  · simp [AddSSHConfigEntry, habsent]
  · simp [AddSSHConfigEntry, hpresent]
  · simp [RemoveSSHConfigEntry, habsent, hmark]

/-- Witness for `hostAliasStore_state_machine`: the empty document and
the document produced by adding `work` to it. -/
theorem hostAliasStore_state_machine_witness :
    (containsHost [] (hostPattern (strOf "work")) = false ∧
      containsSub (beginMarker (strOf "work")) [] = false ∧
      containsHost ([] ++ hostEntry (strOf "work") (strOf "/k")) (hostPattern (strOf "work")) = true) ∧
    (AddSSHConfigEntry [] (strOf "work") (strOf "/k") =
        .written ([] ++ hostEntry (strOf "work") (strOf "/k")) ∧
      AddSSHConfigEntry ([] ++ hostEntry (strOf "work") (strOf "/k")) (strOf "work") (strOf "/k") =
        .duplicateAliasEntry ∧
      RemoveSSHConfigEntry [] (strOf "work") = .nothingToRemove) := by
  have h := hostAliasStore_state_machine [] (strOf "work") (strOf "/k")
    ([] ++ hostEntry (strOf "work") (strOf "/k")) (by decide) (by decide) (by decide)
  exact ⟨⟨by decide, by decide, by decide⟩, ⟨h.1, h.2.2.1, h.2.2.2⟩⟩

/-- C8 (amended): `RemoveSSHConfigEntry` decides "nothing to remove" by
an up-front containment check — neither the derived host pattern occurs
as a `Host` line nor the literal begin-marker text occurs anywhere — and
only then skips the write; that no-op outcome is distinguishable (no
write, no success message) and is not an error.  In every other case the
recomputed text is written back via the backup+temp+rename discipline,
even when it is byte-identical to the original (the code never compares
the resulting text with the original). -/
theorem removeEntry_write_decision (doc N : Str) :
    (RemoveSSHConfigEntry doc N = .nothingToRemove ↔
      containsHost doc (hostPattern N) = false ∧
      containsSub (beginMarker N) doc = false) ∧
    (RemoveSSHConfigEntry doc N = .nothingToRemove ∨
      ∃ d, RemoveSSHConfigEntry doc N = .removed d) := by
  rcases h1 : containsHost doc (hostPattern N) <;>
    rcases h2 : containsSub (beginMarker N) doc <;>
      simp [RemoveSSHConfigEntry, h1, h2]

/-- Counterexample to C8 as stated: for the document
`xx # Multigit managed config for acct\n` (the marker text occurs
mid-line, so the containment check passes but the line scan removes
nothing), `RemoveSSHConfigEntry "acct"` leaves the text byte-identical —
yet the outcome is a write of the unchanged text with the
successful-removal message, not the claimed no-write
"nothing to remove" outcome. -/
theorem removeEntry_unchanged_write_counterexample :
    RemoveSSHConfigEntry (strOf "xx # Multigit managed config for acct\n") (strOf "acct") =
      .removed (strOf "xx # Multigit managed config for acct\n") ∧
    RemoveOutcome.removed (strOf "xx # Multigit managed config for acct\n") ≠
      .nothingToRemove := by
  exact ⟨by decide, by decide⟩

/-- Counterexample to C4 as stated: with the document
`Host mywork.example\n\tUser me\n` the name `work` is not present
(`containsHost` is false), `AddSSHConfigEntry "work"` succeeds, but
`RemoveSSHConfigEntry "work"` afterwards returns the empty document —
the user's unrelated `Host mywork.example` block is destroyed because
the second removal pass matches `work` as a substring of its `Host`
line, so the document is not restored modulo trailing-newline
normalization. -/
theorem alias_inverse_counterexample :
    containsHost (strOf "Host mywork.example\n\tUser me\n") (hostPattern (strOf "work")) = false ∧
    AddSSHConfigEntry (strOf "Host mywork.example\n\tUser me\n") (strOf "work") (strOf "/k") =
      .written (strOf "Host mywork.example\n\tUser me\n" ++ hostEntry (strOf "work") (strOf "/k")) ∧
    RemoveSSHConfigEntry
        (strOf "Host mywork.example\n\tUser me\n" ++ hostEntry (strOf "work") (strOf "/k"))
        (strOf "work") = .removed [] ∧
    normalizeTrailing (strOf "Host mywork.example\n\tUser me\n") =
      strOf "Host mywork.example\n\tUser me\n" ∧
    ([] : Str) ≠ strOf "Host mywork.example\n\tUser me\n" := by
  refine ⟨by decide, by decide, by decide, by decide, by decide⟩

theorem splitOnNl_cons_nl (x : Str) : splitOnNl ('\n' :: x) = [] :: splitOnNl x := rfl

theorem splitOnNl_cons_ne {c : Char} (x : Str) (hc : ¬ c = '\n') :
    splitOnNl (c :: x) =
      match splitOnNl x with
      | [] => [[c]]
      | l :: ls => (c :: l) :: ls := by
  rw [splitOnNl, if_neg hc]

theorem splitOnNl_ne_nil (s : Str) : splitOnNl s ≠ [] := by
  cases s with
  | nil => simp [splitOnNl]
  | cons c rest =>
    by_cases hc : c = '\n'
    · subst hc
      simp [splitOnNl_cons_nl]
    · rw [splitOnNl_cons_ne rest hc]
      rcases h : splitOnNl rest with _ | ⟨l, ls⟩ <;> simp

theorem joinNl_cons_of_ne {L : List Str} (l : Str) (h : L ≠ []) :
    joinNl (l :: L) = l ++ '\n' :: joinNl L := by
  cases L with
  | nil => exact absurd rfl h
  | cons m ms => rfl

theorem splitOnNl_append_cons (a b : Str) :
    splitOnNl (a ++ '\n' :: b) = splitOnNl a ++ splitOnNl b := by
  induction a with
  | nil => simp [splitOnNl_cons_nl, splitOnNl]
  | cons c a' ih =>
    by_cases hc : c = '\n'
    · subst hc
      rw [List.cons_append, splitOnNl_cons_nl, splitOnNl_cons_nl, ih, List.cons_append]
    · rw [List.cons_append, splitOnNl_cons_ne _ hc, splitOnNl_cons_ne _ hc, ih]
      rcases h : splitOnNl a' with _ | ⟨l, ls⟩
      · exact absurd h (splitOnNl_ne_nil a')
      · simp

theorem joinNl_splitOnNl (s : Str) : joinNl (splitOnNl s) = s := by
  induction s with
  | nil => simp [splitOnNl, joinNl]
  | cons c rest ih =>
    by_cases hc : c = '\n'
    · subst hc
      rw [splitOnNl_cons_nl, joinNl_cons_of_ne [] (splitOnNl_ne_nil rest)]
      simp [ih]
    · rw [splitOnNl_cons_ne _ hc]
      rcases h : splitOnNl rest with _ | ⟨l, ls⟩
      · exact absurd h (splitOnNl_ne_nil rest)
      · rw [h] at ih
        rcases ls with _ | ⟨m, ms⟩
        · simpa [joinNl] using congrArg (c :: ·) ih
        · rw [joinNl_cons_of_ne _ (by simp)] at ih ⊢
          rw [List.cons_append, ih]

theorem mem_joinNl_isSub {L : List Str} {l : Str} (h : l ∈ L) : l <:+: joinNl L := by
  induction L with
  | nil => simp at h
  | cons m ms ih =>
    rcases ms with _ | ⟨m2, ms2⟩
    · simp at h
      subst h
      exact List.infix_refl l
    · rw [joinNl_cons_of_ne _ (by simp)]
      rcases List.mem_cons.mp h with h1 | h2
      · subst h1
        exact (List.prefix_append l _).isInfix
      · exact ((ih h2).trans (List.suffix_cons '\n' _).isInfix).trans
          (List.suffix_append m _).isInfix

theorem splitOnNl_mem_isSub {s l : Str} (h : l ∈ splitOnNl s) : l <:+: s := by
  have h2 := mem_joinNl_isSub h
  rwa [joinNl_splitOnNl] at h2

theorem splitOnNl_no_nl {s l : Str} (h : l ∈ splitOnNl s) : '\n' ∉ l := by
  induction s generalizing l with
  | nil =>
    simp [splitOnNl] at h
    simp [h]
  | cons c rest ih =>
    by_cases hc : c = '\n'
    · subst hc
      rw [splitOnNl_cons_nl] at h
      rcases List.mem_cons.mp h with h1 | h2
      · simp [h1]
      · exact ih h2
    · rw [splitOnNl_cons_ne _ hc] at h
      rcases hs : splitOnNl rest with _ | ⟨m, ms⟩
      · exact absurd hs (splitOnNl_ne_nil rest)
      · rw [hs] at h
        rcases List.mem_cons.mp h with h1 | h2
        · subst h1
          intro hmem
          rcases List.mem_cons.mp hmem with h3 | h4
          · exact hc h3.symm
          · exact ih (hs ▸ List.mem_cons_self m ms) h4
        · exact ih (hs ▸ List.mem_cons.mpr (Or.inr h2))

theorem splitOnNl_eq_self {l : Str} (h : '\n' ∉ l) : splitOnNl l = [l] := by
  induction l with
  | nil => rfl
  | cons c rest ih =>
    have hc : ¬ c = '\n' := fun he => h (he ▸ List.mem_cons_self c rest)
    have hr : '\n' ∉ rest := fun hm => h (List.mem_cons.mpr (Or.inr hm))
    rw [splitOnNl_cons_ne _ hc, ih hr]

theorem splitOnNl_joinNl {L : List Str} (hne : L ≠ []) (h : ∀ l ∈ L, '\n' ∉ l) :
    splitOnNl (joinNl L) = L := by
  induction L with
  | nil => exact absurd rfl hne
  | cons m ms ih =>
    rcases ms with _ | ⟨m2, ms2⟩
    · exact splitOnNl_eq_self (h m (List.mem_cons_self m []))
    · rw [joinNl_cons_of_ne _ (by simp), splitOnNl_append_cons,
        splitOnNl_eq_self (h m (List.mem_cons_self m _)),
        ih (by simp) (fun l hl => h l (List.mem_cons.mpr (Or.inr hl)))]
      rfl

theorem trimLeftWS_cons_of {c : Char} (r : Str) (h : goIsSpace c = false) :
    trimLeftWS (c :: r) = c :: r := by
  simp [trimLeftWS, List.dropWhile_cons, h]

theorem trimRightWS_cons_of {c : Char} (r : Str) (h : goIsSpace c = false) :
    ∃ r', trimRightWS (c :: r) = c :: r' := by
  unfold trimRightWS
  rw [List.reverse_cons, List.dropWhile_append]
  split_ifs with he
  · exact ⟨[], by simp [List.dropWhile_cons, h]⟩
  · refine ⟨(r.reverse.dropWhile goIsSpace).reverse, ?_⟩
    simp

theorem trimWS_cons_of {c : Char} (r : Str) (h : goIsSpace c = false) :
    ∃ r', trimWS (c :: r) = c :: r' := by
  unfold trimWS
  rw [trimLeftWS_cons_of r h]
  exact trimRightWS_cons_of r h

theorem trimRightWS_last_stable {N : Str} (hne : N ≠ []) (htr : trimRightWS N = N) (x : Str) :
    trimRightWS (x ++ N) = x ++ N := by
  have hdw : N.reverse.dropWhile goIsSpace = N.reverse := by
    have h2 := congrArg List.reverse htr
    rwa [trimRightWS, List.reverse_reverse] at h2
  unfold trimRightWS
  rw [List.reverse_append, List.dropWhile_append, hdw]
  split_ifs with he
  · simp at he
    exact absurd he hne
  · simp

theorem trimWS_fixed_line {c : Char} {rest N : Str} (hc : goIsSpace c = false)
    (hNne : N ≠ []) (htr : trimRightWS N = N) :
    trimWS (c :: rest ++ N) = c :: rest ++ N := by
  unfold trimWS
  rw [List.cons_append, trimLeftWS_cons_of _ hc, ← List.cons_append,
    trimRightWS_last_stable hNne htr]

theorem trimWS_isSub (l : Str) : trimWS l <:+: l := by
  have h1 : trimLeftWS l <:+ l := List.dropWhile_suffix goIsSpace
  have h2 : trimRightWS (trimLeftWS l) <+: trimLeftWS l := by
    unfold trimRightWS
    have h3 := List.dropWhile_suffix (l := (trimLeftWS l).reverse) goIsSpace
    have h4 := h3.reverse
    simpa using h4
  exact (h2.isInfix).trans h1.isInfix

theorem containsSub_eq_false_iff {n h : Str} : containsSub n h = false ↔ ¬ n <:+: h := by
  rw [← containsSub_iff_infix]
  simp

theorem not_infix_of_short {g N P R : Str} (hg : ¬ g <:+: P) (hlen : R.length ≤ N.length) :
    ¬ (g ++ N) <:+: (P ++ R) := by
  rintro ⟨s, t, heq⟩
  have hlen2 : s.length + g.length + N.length + t.length = P.length + R.length := by
    have h2 := congrArg List.length heq
    simpa [List.length_append, Nat.add_assoc] using h2
  have hle : (s ++ g).length ≤ P.length := by
    simp only [List.length_append]
    omega
  have hpre : (s ++ g) <+: (P ++ R) := by
    refine ⟨N ++ t, ?_⟩
    rw [← heq]
    simp [List.append_assoc]
  have hpre2 : (s ++ g) <+: P :=
    (List.isPrefix_append_of_length hle).mp hpre
  rcases hpre2 with ⟨u, hu⟩
  exact hg ⟨s, u, by rw [← hu]⟩

theorem isPrefixOf_append_self (l t : Str) : l.isPrefixOf (l ++ t) = true :=
  List.isPrefixOf_iff_prefix.mpr (List.prefix_append l t)

theorem isPrefixOf_cons_ne {a b : Char} (as bs : Str) (h : (a == b) = false) :
    (a :: as).isPrefixOf (b :: bs) = false := by
  simp [List.isPrefixOf, h]

theorem hostPattern_not_infix_beginMarker (N : Str) :
    ¬ hostPattern N <:+: beginMarker N := by
  unfold hostPattern beginMarker
  exact not_infix_of_short (by decide) (Nat.le_refl N.length)

theorem suffix_hostPattern (N : Str) : N <:+ hostPattern N := List.suffix_append _ N

theorem suffix_beginMarker (N : Str) : N <:+ beginMarker N := List.suffix_append _ N

theorem removeHostLine_keep {pat : Str} (hpat : pat ≠ []) (res : List Str) (k : Int)
    (l : Str) (hc : containsSub pat (trimWS l) = false) :
    removeHostLine pat ⟨res, false, false, k⟩ l = ⟨res ++ [l], false, false, k⟩ := by
  have hEmp : pat.isEmpty = false := List.isEmpty_eq_false.mpr hpat
  simp [removeHostLine, hc, hEmp]

theorem foldl_keep {pat : Str} (hpat : pat ≠ []) (lines : List Str)
    (h : ∀ l ∈ lines, containsSub pat (trimWS l) = false) (res : List Str) (k : Int) :
    lines.foldl (removeHostLine pat) ⟨res, false, false, k⟩ =
      ⟨res ++ lines, false, false, k⟩ := by
  induction lines generalizing res with
  | nil => simp
  | cons l t ih =>
    rw [List.foldl_cons, removeHostLine_keep hpat res k l (h l (by simp)),
      ih (fun x hx => h x (by simp [hx]))]
    simp

theorem removeHostLine_skip_inHost {pat : Str} (res : List Str) (k : Int) (l : Str)
    (h1 : ((strOf "# Multigit managed config for ").isPrefixOf (trimWS l) &&
      (pat.isEmpty || containsSub pat (trimWS l))) = false)
    (h2 : (strOf "Host ").isPrefixOf (trimWS l) = false) :
    removeHostLine pat ⟨res, true, false, k⟩ l = ⟨res, true, false, k⟩ := by
  simp [removeHostLine, h1, h2]

theorem removeHostLine_hostline (N : Str) (res : List Str) (k : Int)
    (htr : trimWS (strOf "Host " ++ hostPattern N) = strOf "Host " ++ hostPattern N) :
    removeHostLine (hostPattern N) ⟨res, false, false, k⟩ (strOf "Host " ++ hostPattern N) =
      ⟨res, true, false, k⟩ := by
  have hEmp : (hostPattern N).isEmpty = false := by
    apply List.isEmpty_eq_false.mpr
    simp [hostPattern, strOf]
  have hcon : containsSub (hostPattern N) (trimWS (strOf "Host " ++ hostPattern N)) = true := by
    rw [htr]
    exact containsSub_of_infix (List.suffix_append _ _).isInfix
  have hpre1 : (strOf "# Multigit managed config for ").isPrefixOf
      (trimWS (strOf "Host " ++ hostPattern N)) = false := by
    rw [htr]
    rfl
  have hpre2 : (strOf "Host ").isPrefixOf (trimWS (strOf "Host " ++ hostPattern N)) = true := by
    rw [htr]
    exact isPrefixOf_append_self _ _
  simp [removeHostLine, hpre1, hpre2, hcon, hEmp]

theorem removeHostLine_skip_inHost2 {pat : Str} (res : List Str) (k : Int) (l : Str)
    (h1 : (strOf "# Multigit managed config for ").isPrefixOf (trimWS l) = false)
    (h2 : (strOf "Host ").isPrefixOf (trimWS l) = false) :
    removeHostLine pat ⟨res, true, false, k⟩ l = ⟨res, true, false, k⟩ := by
  simp [removeHostLine, h1, h2]

theorem removeHostLine_marker_pass2 (N : Str) (res : List Str) (k : Int)
    (htrm : trimWS (beginMarker N) = beginMarker N) :
    removeHostLine N ⟨res, false, false, k⟩ (beginMarker N) =
      ⟨res, false, true, (res.length : Int)⟩ := by
  have hpre : (strOf "# Multigit managed config for ").isPrefixOf
      (trimWS (beginMarker N)) = true := by
    rw [htrm]
    exact isPrefixOf_append_self _ _
  have hcon : containsSub N (trimWS (beginMarker N)) = true := by
    rw [htrm]
    exact containsSub_of_infix (suffix_beginMarker N).isInfix
  simp [removeHostLine, hpre, hcon]

theorem containsSub_nil_left (h : Str) : containsSub [] h = true :=
  containsSub_of_infix ⟨[], h, rfl⟩

theorem doc_line_no_pat {doc N pat : Str} (hN : containsSub N doc = false)
    (hsub : N <:+: pat) {l : Str} (hl : l ∈ splitOnNl doc) :
    containsSub pat (trimWS l) = false := by
  rw [containsSub_eq_false_iff]
  intro hinf
  exact (containsSub_eq_false_iff.mp hN)
    ((hsub.trans hinf).trans ((trimWS_isSub l).trans (splitOnNl_mem_isSub hl)))

theorem dropTrailingBlank_append_nonblank (xs : List Str) (l : Str)
    (h : (trimWS l).isEmpty = false) :
    dropTrailingBlank (xs ++ [l]) = xs ++ [l] := by
  unfold dropTrailingBlank
  rw [List.reverse_append]
  simp [List.dropWhile_cons, h]

theorem dropTrailingBlank_idem (ls : List Str) :
    dropTrailingBlank (dropTrailingBlank ls) = dropTrailingBlank ls := by
  unfold dropTrailingBlank
  rw [List.reverse_reverse, List.dropWhile_idempotent]

theorem mem_dropTrailingBlank {ls : List Str} {l : Str} (h : l ∈ dropTrailingBlank ls) :
    l ∈ ls := by
  unfold dropTrailingBlank at h
  rw [List.mem_reverse] at h
  have h2 := (List.dropWhile_sublist (l := ls.reverse)
    (fun x => (trimWS x).isEmpty)).mem h
  rwa [List.mem_reverse] at h2

theorem trimLeftWS_cons_ws {c : Char} (r : Str) (h : goIsSpace c = true) :
    trimLeftWS (c :: r) = trimLeftWS r := by
  simp [trimLeftWS, List.dropWhile_cons, h]

theorem trimWS_fixed_line2 {x N : Str} {c : Char} {r : Str} (hx : x = c :: r)
    (hc : goIsSpace c = false) (hNne : N ≠ []) (htr : trimRightWS N = N) :
    trimWS (x ++ N) = x ++ N := by
  subst hx
  exact trimWS_fixed_line hc hNne htr

theorem removeHostEntry_of_foldl {configData pat : Str} {res : List Str} {hb : Bool} {k : Int}
    (hst : (splitOnNl configData).foldl (removeHostLine pat) ⟨[], false, false, -1⟩ =
      ⟨res, hb, false, k⟩) :
    removeHostEntry configData pat = joinNl (dropTrailingBlank res) := by
  unfold removeHostEntry
  rw [hst]
  simp

theorem removeHostEntry_of_foldl_multi {configData pat : Str} {res : List Str} {hb : Bool}
    (hst : (splitOnNl configData).foldl (removeHostLine pat) ⟨[], false, false, -1⟩ =
      ⟨res, hb, true, (res.length : Int)⟩) :
    removeHostEntry configData pat = joinNl (dropTrailingBlank res) := by
  unfold removeHostEntry
  rw [hst]
  have h2 : ¬((res.length : Int) < (res.length : Int)) := lt_irrefl _
  simp [h2]

theorem hostline_eq (N : Str) :
    strOf "Host " ++ hostPattern N = strOf "Host github.com-" ++ N := by
  show strOf "Host " ++ (strOf "github.com-" ++ N) = strOf "Host github.com-" ++ N
  rw [← List.append_assoc]
  rfl

theorem removeHostEntry_pass1 (doc N p : Str)
    (hN : containsSub N doc = false) (hnlN : '\n' ∉ N) (hnlp : '\n' ∉ p)
    (hNne : N ≠ []) (htrN : trimRightWS N = N) :
    removeHostEntry (doc ++ hostEntry N p) (hostPattern N) =
      joinNl (splitOnNl doc ++ [beginMarker N]) := by
  have hpatne : hostPattern N ≠ [] := by simp [hostPattern, strOf]
  have htbm : trimWS (beginMarker N) = beginMarker N :=
    trimWS_fixed_line2 (x := strOf "# Multigit managed config for ")
      (c := '#') (r := strOf " Multigit managed config for ") rfl (by decide) hNne htrN
  have htem : trimWS (endMarker N) = endMarker N :=
    trimWS_fixed_line2 (x := strOf "# End of Multigit config for ")
      (c := '#') (r := strOf " End of Multigit config for ") rfl (by decide) hNne htrN
  have hthost : trimWS (strOf "Host " ++ hostPattern N) = strOf "Host " ++ hostPattern N := by
    rw [hostline_eq]
    exact trimWS_fixed_line2 (x := strOf "Host github.com-")
      (c := 'H') (r := strOf "ost github.com-") rfl (by decide) hNne htrN
  have hcbm : containsSub (hostPattern N) (trimWS (beginMarker N)) = false := by
    rw [htbm]
    exact containsSub_eq_false_iff.mpr (hostPattern_not_infix_beginMarker N)
  have hident : ∃ r', trimWS (strOf "\tIdentityFile " ++ p) = 'I' :: r' := by
    have ha : strOf "\tIdentityFile " ++ p = '\t' :: ('I' :: (strOf "dentityFile " ++ p)) := rfl
    rw [ha]
    unfold trimWS
    rw [trimLeftWS_cons_ws _ (by decide), trimLeftWS_cons_of _ (by decide)]
    exact trimRightWS_cons_of _ (by decide)
  obtain ⟨r', hr'⟩ := hident
  -- the line list of the document after the append
  have hform : doc ++ hostEntry N p =
      doc ++ '\n' :: (beginMarker N ++ '\n' :: ((strOf "Host " ++ hostPattern N) ++
        '\n' :: (strOf "\tHostName github.com" ++ '\n' :: (strOf "\tUser git" ++
        '\n' :: ((strOf "\tIdentityFile " ++ p) ++ '\n' :: (strOf "\tIdentitiesOnly yes" ++
        '\n' :: (endMarker N ++ '\n' :: ([] : Str)))))))) := by
    simp [hostEntry, List.append_assoc]
  have hsplit : splitOnNl (doc ++ hostEntry N p) =
      splitOnNl doc ++ [beginMarker N, strOf "Host " ++ hostPattern N,
        strOf "\tHostName github.com", strOf "\tUser git", strOf "\tIdentityFile " ++ p,
        strOf "\tIdentitiesOnly yes", endMarker N, []] := by
    have hnbm : '\n' ∉ beginMarker N := by
      unfold beginMarker
      intro h
      rcases List.mem_append.mp h with h1 | h2
      · exact absurd h1 (by decide)
      · exact hnlN h2
    have hnhost : '\n' ∉ strOf "Host " ++ hostPattern N := by
      rw [hostline_eq]
      intro h
      rcases List.mem_append.mp h with h1 | h2
      · exact absurd h1 (by decide)
      · exact hnlN h2
    have hnem : '\n' ∉ endMarker N := by
      unfold endMarker
      intro h
      rcases List.mem_append.mp h with h1 | h2
      · exact absurd h1 (by decide)
      · exact hnlN h2
    have hnident : '\n' ∉ strOf "\tIdentityFile " ++ p := by
      intro h
      rcases List.mem_append.mp h with h1 | h2
      · exact absurd h1 (by decide)
      · exact hnlp h2
    have hnb1 : '\n' ∉ strOf "\tHostName github.com" := by decide
    have hnb2 : '\n' ∉ strOf "\tUser git" := by decide
    have hnb4 : '\n' ∉ strOf "\tIdentitiesOnly yes" := by decide
    rw [hform, splitOnNl_append_cons, splitOnNl_append_cons, splitOnNl_append_cons,
      splitOnNl_append_cons, splitOnNl_append_cons, splitOnNl_append_cons,
      splitOnNl_append_cons, splitOnNl_append_cons,
      splitOnNl_eq_self hnbm, splitOnNl_eq_self hnhost,
      splitOnNl_eq_self hnb1, splitOnNl_eq_self hnb2,
      splitOnNl_eq_self hnident, splitOnNl_eq_self hnb4,
      splitOnNl_eq_self hnem]
    simp [splitOnNl]
  have hdoclines : ∀ l ∈ splitOnNl doc,
      containsSub (hostPattern N) (trimWS l) = false :=
    fun l hl => doc_line_no_pat hN (suffix_hostPattern N).isInfix hl
  have hst : (splitOnNl (doc ++ hostEntry N p)).foldl (removeHostLine (hostPattern N))
      ⟨[], false, false, -1⟩ = ⟨splitOnNl doc ++ [beginMarker N], true, false, -1⟩ := by
    have hsb1 : (strOf "# Multigit managed config for ").isPrefixOf
        (trimWS (strOf "\tHostName github.com")) = false := by decide
    have hsb1h : (strOf "Host ").isPrefixOf (trimWS (strOf "\tHostName github.com")) = false := by
      decide
    have hsb2 : (strOf "# Multigit managed config for ").isPrefixOf
        (trimWS (strOf "\tUser git")) = false := by decide
    have hsb2h : (strOf "Host ").isPrefixOf (trimWS (strOf "\tUser git")) = false := by decide
    have hsb4 : (strOf "# Multigit managed config for ").isPrefixOf
        (trimWS (strOf "\tIdentitiesOnly yes")) = false := by decide
    have hsb4h : (strOf "Host ").isPrefixOf (trimWS (strOf "\tIdentitiesOnly yes")) = false := by
      decide
    have hsid : (strOf "# Multigit managed config for ").isPrefixOf
        (trimWS (strOf "\tIdentityFile " ++ p)) = false := by
      rw [hr']
      exact isPrefixOf_cons_ne _ _ (by decide)
    have hsidh : (strOf "Host ").isPrefixOf (trimWS (strOf "\tIdentityFile " ++ p)) = false := by
      rw [hr']
      exact isPrefixOf_cons_ne _ _ (by decide)
    have hsem : (strOf "# Multigit managed config for ").isPrefixOf
        (trimWS (endMarker N)) = false := by
      rw [htem]
      rfl
    have hsemh : (strOf "Host ").isPrefixOf (trimWS (endMarker N)) = false := by
      rw [htem]
      rfl
    have hsnil : (strOf "# Multigit managed config for ").isPrefixOf (trimWS []) = false := by
      decide
    have hsnilh : (strOf "Host ").isPrefixOf (trimWS []) = false := by decide
    rw [hsplit, List.foldl_append, foldl_keep hpatne _ hdoclines]
    rw [List.foldl_cons, removeHostLine_keep hpatne _ _ _ hcbm]
    rw [List.foldl_cons, removeHostLine_hostline N _ _ hthost]
    rw [List.foldl_cons, removeHostLine_skip_inHost2 _ _ _ hsb1 hsb1h]
    rw [List.foldl_cons, removeHostLine_skip_inHost2 _ _ _ hsb2 hsb2h]
    rw [List.foldl_cons, removeHostLine_skip_inHost2 _ _ _ hsid hsidh]
    rw [List.foldl_cons, removeHostLine_skip_inHost2 _ _ _ hsb4 hsb4h]
    rw [List.foldl_cons, removeHostLine_skip_inHost2 _ _ _ hsem hsemh]
    rw [List.foldl_cons, removeHostLine_skip_inHost2 _ _ _ hsnil hsnilh]
    rw [List.foldl_nil]
    simp
  rw [removeHostEntry_of_foldl hst]
  have hbmne : (trimWS (beginMarker N)).isEmpty = false := by
    rw [htbm]
    apply List.isEmpty_eq_false.mpr
    simp [beginMarker, strOf]
  rw [dropTrailingBlank_append_nonblank _ _ hbmne]

theorem removeHostEntry_pass2 (doc N : Str)
    (hN : containsSub N doc = false) (hnlN : '\n' ∉ N)
    (hNne : N ≠ []) (htrN : trimRightWS N = N) :
    removeHostEntry (joinNl (splitOnNl doc ++ [beginMarker N])) N =
      joinNl (dropTrailingBlank (splitOnNl doc)) := by
  have htbm : trimWS (beginMarker N) = beginMarker N :=
    trimWS_fixed_line2 (x := strOf "# Multigit managed config for ")
      (c := '#') (r := strOf " Multigit managed config for ") rfl (by decide) hNne htrN
  have hnbm : '\n' ∉ beginMarker N := by
    unfold beginMarker
    intro h
    rcases List.mem_append.mp h with h1 | h2
    · exact absurd h1 (by decide)
    · exact hnlN h2
  have hsplit : splitOnNl (joinNl (splitOnNl doc ++ [beginMarker N])) =
      splitOnNl doc ++ [beginMarker N] := by
    apply splitOnNl_joinNl (by simp)
    intro l hl
    rcases List.mem_append.mp hl with h1 | h2
    · exact splitOnNl_no_nl h1
    · simp at h2
      subst h2
      exact hnbm
  have hdoclines : ∀ l ∈ splitOnNl doc, containsSub N (trimWS l) = false :=
    fun l hl => doc_line_no_pat hN (List.infix_refl N) hl
  have hst : (splitOnNl (joinNl (splitOnNl doc ++ [beginMarker N]))).foldl
      (removeHostLine N) ⟨[], false, false, -1⟩ =
      ⟨splitOnNl doc, false, true, ((splitOnNl doc).length : Int)⟩ := by
    rw [hsplit, List.foldl_append, foldl_keep hNne _ hdoclines]
    rw [List.foldl_cons, removeHostLine_marker_pass2 N _ _ htbm, List.foldl_nil]
    simp
  exact removeHostEntry_of_foldl_multi hst

/-- C4 (amended): for an identity name `N` that does not occur as a
substring of the document, contains no newline and no trailing
whitespace, and a newline-free key path, `RemoveSSHConfigEntry N` right
after a successful `AddSSHConfigEntry N` writes back exactly the
original document in trailing-newline normal form (trailing blank lines
trimmed, one trailing newline when non-empty) — byte-equality whenever
the original is already in that form. -/
theorem alias_add_remove_inverse (doc N p : Str)
    (hN : containsSub N doc = false) (hnlN : '\n' ∉ N) (hnlp : '\n' ∉ p)
    (htrN : trimRightWS N = N) :
    AddSSHConfigEntry doc N p = .written (doc ++ hostEntry N p) ∧
    RemoveSSHConfigEntry (doc ++ hostEntry N p) N = .removed (normalizeTrailing doc) := by
  have hNne : N ≠ [] := by
    intro h
    subst h
    rw [containsSub_nil_left] at hN
    simp at hN
  have hlineq : strOf "Host " ++ hostPattern N = (strOf "Host " ++ strOf "github.com-") ++ N := by
    simp [hostPattern, List.append_assoc]
  have habsent : containsHost doc (hostPattern N) = false := by
    unfold containsHost
    apply Bool.or_eq_false_iff.mpr
    constructor
    · apply containsSub_false_of_sub hN
      have hs : N <:+ '\n' :: (strOf "Host " ++ hostPattern N) := by
        refine ⟨'\n' :: (strOf "Host " ++ strOf "github.com-"), ?_⟩
        rw [hlineq]
        simp
      exact hs.isInfix
    · by_contra hc
      rw [Bool.not_eq_false, List.isPrefixOf_iff_prefix] at hc
      have hs : N <:+ strOf "Host " ++ hostPattern N := by
        refine ⟨strOf "Host " ++ strOf "github.com-", ?_⟩
        rw [hlineq]
      have hNdoc : N <:+: doc := hs.isInfix.trans hc.isInfix
      exact absurd hNdoc (containsSub_eq_false_iff.mp hN)
  refine ⟨by simp [AddSSHConfigEntry, habsent], ?_⟩
  have hpre : containsHost (doc ++ hostEntry N p) (hostPattern N) = true :=
    containsHost_append_hostEntry doc N p
  have hcon1 : containsSub N (joinNl (splitOnNl doc ++ [beginMarker N])) = true := by
    apply containsSub_of_infix
    exact ((suffix_beginMarker N).isInfix).trans (mem_joinNl_isSub (by simp))
  simp only [RemoveSSHConfigEntry, hpre, Bool.not_true, Bool.false_and, Bool.false_eq_true,
    if_false, removeHostEntry_pass1 doc N p hN hnlN hnlp hNne htrN, hcon1, if_true,
    removeHostEntry_pass2 doc N hN hnlN hNne htrN]
  by_cases hDB : dropTrailingBlank (splitOnNl doc) = []
  · simp only [normalizeTrailing, hDB]
    decide
  · have hsp : splitOnNl (joinNl (dropTrailingBlank (splitOnNl doc))) =
        dropTrailingBlank (splitOnNl doc) :=
      splitOnNl_joinNl hDB (fun l hl => splitOnNl_no_nl (mem_dropTrailingBlank hl))
    rw [hsp, dropTrailingBlank_idem]
    simp [normalizeTrailing]

/-- Witness for `alias_add_remove_inverse`: adding and then removing
`work` on a document holding an unrelated `Host other.com` block
restores it exactly (it is already in trailing-newline normal form). -/
theorem alias_add_remove_inverse_witness :
    (containsSub (strOf "work") (strOf "Host other.com\n\tUser x\n") = false ∧
      '\n' ∉ strOf "work" ∧ '\n' ∉ strOf "/k" ∧
      trimRightWS (strOf "work") = strOf "work") ∧
    (AddSSHConfigEntry (strOf "Host other.com\n\tUser x\n") (strOf "work") (strOf "/k") =
        .written (strOf "Host other.com\n\tUser x\n" ++ hostEntry (strOf "work") (strOf "/k")) ∧
      RemoveSSHConfigEntry
          (strOf "Host other.com\n\tUser x\n" ++ hostEntry (strOf "work") (strOf "/k"))
          (strOf "work") =
        .removed (normalizeTrailing (strOf "Host other.com\n\tUser x\n"))) :=
  ⟨⟨by decide, by decide, by decide, by decide⟩,
    alias_add_remove_inverse (strOf "Host other.com\n\tUser x\n") (strOf "work") (strOf "/k")
      (by decide) (by decide) (by decide) (by decide)⟩

/-- Witness for `createAccount_validation_order`: each validation
failure at a concrete call, and the duplicate failure of a second
create after a successful first one. -/
theorem createAccount_validation_order_witness :
    CreateAccount "" "a@b.com" "" NewConfig ⟨true, true, true, true⟩ =
      (.error .emptyName, []) ∧
    CreateAccount "work" "" "" NewConfig ⟨true, true, true, true⟩ =
      (.error .emptyEmail, []) ∧
    CreateAccount "work" "nomail" "" NewConfig ⟨true, true, true, true⟩ =
      (.error .invalidEmail, []) ∧
    CreateAccount "work" "a@b.com" ""
        ⟨[("work", ⟨"work", "a@b.com"⟩)], "", [], ""⟩ ⟨true, true, true, true⟩ =
      (.error .duplicateAccount, []) ∧
    CreateAccount "work" "b@c.de" "pp"
        ⟨[("work", ⟨"work", "a@b.com"⟩)], "", [], ""⟩ ⟨true, true, true, true⟩ =
      (.error .duplicateAccount, []) :=
  ⟨(createAccount_validation_order "" "a@b.com" "" NewConfig ⟨true, true, true, true⟩).1 rfl,
    (createAccount_validation_order "work" "" "" NewConfig
      ⟨true, true, true, true⟩).2.1 (by decide) rfl,
    (createAccount_validation_order "work" "nomail" "" NewConfig
      ⟨true, true, true, true⟩).2.2.1 (by decide) (by decide) (by decide),
    (createAccount_validation_order "work" "a@b.com" ""
      ⟨[("work", ⟨"work", "a@b.com"⟩)], "", [], ""⟩
      ⟨true, true, true, true⟩).2.2.2.1 (by decide) (by decide) (by decide) (by decide),
    (createAccount_validation_order "work" "a@b.com" "" NewConfig
      ⟨true, true, true, true⟩).2.2.2.2
      ⟨[("work", ⟨"work", "a@b.com"⟩)], "", [], ""⟩
      [.createSSHKey, .addKeyToAgent, .addConfigEntry, .saveConfig]
      "b@c.de" "pp" ⟨true, true, true, true⟩ rfl (by decide) (by decide)⟩

/-- Witness for `deleteAccount_contract`: deleting an absent account
fails fast with no effects; deleting the present, active account `work`
removes the record and clears the active account. -/
theorem deleteAccount_contract_witness :
    DeleteAccount "gone" ⟨[("work", ⟨"work", "a@b.com"⟩)], "work", [], ""⟩
        ⟨true, true, true⟩ = (.error .accountNotFound, []) ∧
    DeleteAccount "work" ⟨[("work", ⟨"work", "a@b.com"⟩)], "work", [], ""⟩
        ⟨false, false, true⟩ =
      (.ok ⟨[], "", [], ""⟩, [.deleteSSHKey, .removeConfigEntry, .saveConfig]) :=
  ⟨(deleteAccount_contract "gone" ⟨[("work", ⟨"work", "a@b.com"⟩)], "work", [], ""⟩
      ⟨true, true, true⟩).1 (by decide),
    by
      have h := ((deleteAccount_contract "work"
        ⟨[("work", ⟨"work", "a@b.com"⟩)], "work", [], ""⟩
        ⟨false, false, true⟩).2 (by decide)).2.2 rfl
      rw [h.1]
      rfl⟩

/-- Witness for `deleteSSHKey_overmatch`: deleting `work` while the
listing holds the unrelated identity file `id_rsa_work2` marks that file
for deletion as well. -/
theorem deleteSSHKey_overmatch_witness :
    (strOf "/h/.ssh/" ++ strOf "id_rsa_work2") ∈
      deleteSSHKeyCandidates (strOf "/h/.ssh/") [(strOf "id_rsa_work2", false)]
        (strOf "work") ∧
    (strOf "/h/.ssh/" ++ (strOf "id_rsa_" ++ strOf "work")) ∈
      deleteSSHKeyCandidates (strOf "/h/.ssh/") [(strOf "id_rsa_work2", false)]
        (strOf "work") ∧
    (strOf "/h/.ssh/" ++ (strOf "id_ed25519_" ++ strOf "work")) ∈
      deleteSSHKeyCandidates (strOf "/h/.ssh/") [(strOf "id_rsa_work2", false)]
        (strOf "work") :=
  ⟨(deleteSSHKey_overmatch (strOf "/h/.ssh/") [(strOf "id_rsa_work2", false)] (strOf "work")
      (by decide) (by decide)).1 (strOf "id_rsa_work2") false (by simp) rfl (by decide),
    (deleteSSHKey_overmatch (strOf "/h/.ssh/") [(strOf "id_rsa_work2", false)] (strOf "work")
      (by decide) (by decide)).2.1,
    (deleteSSHKey_overmatch (strOf "/h/.ssh/") [(strOf "id_rsa_work2", false)] (strOf "work")
      (by decide) (by decide)).2.2⟩

end Multigit
